import Mathlib

/-!
# Signed cookie jar: authenticated value framing

A shallow embedding of the signed-cookie layer: a signer that prepends a
base64-encoded HMAC-SHA256 tag to a cookie's value, and a verifier that
splits the framed value at the fixed byte offset 44, decodes the tag and
compares it against the recomputed MAC.

Bytes are `Nat`s kept below 256; 32-bit words are `Nat`s reduced modulo
`2 ^ 32` wherever overflow matters. Rust strings (valid UTF-8, no
surrogates) are modelled as `List Char` — Lean's `Char` is exactly a
unicode scalar value — together with an explicit UTF-8 byte encoding, so
that byte offsets and character boundaries mean what they do in Rust.

The MAC primitive (HMAC-SHA256, from the `hmac`/`sha2` crates) and the
fixed-width text encoding (`base64ct`'s padded standard `Base64`) are
external collaborators of the signed jar; they are embedded here by their
standard definitions: FIPS 180-4 SHA-256, RFC 2104 HMAC, and RFC 4648
base64 with `=` padding, decoded the way base64ct's `decode` actually
behaves: padding is validated structurally, surplus bits of the final
partial group are dropped without a canonicality check, and decoding into
the zero-initialized 32-byte digest buffer fails only when the decoded
length exceeds the buffer — a shorter decode leaves the buffer's trailing
zeros in place, and the caller compares the whole buffer.
-/

namespace SignedCookie

/-! ## 32-bit word arithmetic -/

/-- Reduce to a 32-bit word. -/
def w32 (n : Nat) : Nat := n % 2 ^ 32

/-- Right-rotation of a 32-bit word by `k` bits. -/
def rotr (k n : Nat) : Nat := w32 ((n >>> k) ||| (n <<< (32 - k)))

/-- Bitwise complement of a 32-bit word. -/
def compl32 (n : Nat) : Nat := n ^^^ 0xffffffff

/-! ## SHA-256 (FIPS 180-4) -/

/-- SHA-256 `Ch` function. -/
def ch (x y z : Nat) : Nat := (x &&& y) ^^^ (compl32 x &&& z)

/-- SHA-256 `Maj` function. -/
def maj (x y z : Nat) : Nat := (x &&& y) ^^^ (x &&& z) ^^^ (y &&& z)

/-- SHA-256 `Σ₀`. -/
def bigSigma0 (x : Nat) : Nat := rotr 2 x ^^^ rotr 13 x ^^^ rotr 22 x

/-- SHA-256 `Σ₁`. -/
def bigSigma1 (x : Nat) : Nat := rotr 6 x ^^^ rotr 11 x ^^^ rotr 25 x

/-- SHA-256 `σ₀`. -/
def smallSigma0 (x : Nat) : Nat := rotr 7 x ^^^ rotr 18 x ^^^ (x >>> 3)

/-- SHA-256 `σ₁`. -/
def smallSigma1 (x : Nat) : Nat := rotr 17 x ^^^ rotr 19 x ^^^ (x >>> 10)

/-- The 64 SHA-256 round constants, in decimal. -/
def K256 : List Nat :=
  [1116352408, 1899447441, 3049323471, 3921009573, 961987163,
   1508970993, 2453635748, 2870763221, 3624381080, 310598401,
   607225278, 1426881987, 1925078388, 2162078206, 2614888103,
   3248222580, 3835390401, 4022224774, 264347078, 604807628,
   770255983, 1249150122, 1555081692, 1996064986, 2554220882,
   2821834349, 2952996808, 3210313671, 3336571891, 3584528711,
   113926993, 338241895, 666307205, 773529912, 1294757372,
   1396182291, 1695183700, 1986661051, 2177026350, 2456956037,
   2730485921, 2820302411, 3259730800, 3345764771, 3516065817,
   3600352804, 4094571909, 275423344, 430227734, 506948616,
   659060556, 883997877, 958139571, 1322822218, 1537002063,
   1747873779, 1955562222, 2024104815, 2227730452, 2361852424,
   2428436474, 2756734187, 3204031479, 3329325298]

/-- The SHA-256 padding: append `0x80`, zeros, and the 64-bit big-endian
bit length, to a multiple of 64 bytes. -/
def padMessage (msg : List Nat) : List Nat :=
  let L := msg.length
  let zeros := (64 - (L + 9) % 64) % 64
  let bits := 8 * L % 2 ^ 64
  msg ++ 0x80 :: List.replicate zeros 0 ++
    [bits / 2 ^ 56 % 256, bits / 2 ^ 48 % 256, bits / 2 ^ 40 % 256, bits / 2 ^ 32 % 256,
     bits / 2 ^ 24 % 256, bits / 2 ^ 16 % 256, bits / 2 ^ 8 % 256, bits % 256]

/-- Pack big-endian groups of four bytes into 32-bit words. -/
def toWords : List Nat → List Nat
  | a :: b :: c :: d :: rest => (((a * 256 + b) * 256 + c) * 256 + d) :: toWords rest
  | _ => []

/-- One step of the message-schedule extension, over the reversed schedule
(newest word at the head): `W[i] = σ₁ W[i-2] + W[i-7] + σ₀ W[i-15] + W[i-16]`. -/
def scheduleStep (ws : List Nat) : List Nat :=
  w32 (smallSigma1 (ws.getD 1 0) + ws.getD 6 0 + smallSigma0 (ws.getD 14 0) + ws.getD 15 0) :: ws

/-- The 64-word message schedule of one 64-byte block. -/
def schedule (block : List Nat) : List Nat :=
  (scheduleStep^[48] (toWords block).reverse).reverse

/-- The eight 32-bit working variables of the SHA-256 compression function. -/
structure Sha256State where
  a : Nat
  b : Nat
  c : Nat
  d : Nat
  e : Nat
  f : Nat
  g : Nat
  h : Nat
deriving DecidableEq, Repr

/-- One SHA-256 round, consuming a round constant paired with a schedule word. -/
def round (s : Sha256State) (kw : Nat × Nat) : Sha256State :=
  let t1 := w32 (s.h + bigSigma1 s.e + ch s.e s.f s.g + kw.1 + kw.2)
  let t2 := w32 (bigSigma0 s.a + maj s.a s.b s.c)
  ⟨w32 (t1 + t2), s.a, s.b, s.c, w32 (s.d + t1), s.e, s.f, s.g⟩

/-- Compress one 64-byte block into the chaining state. -/
def compress (s : Sha256State) (block : List Nat) : Sha256State :=
  let t := (K256.zip (schedule block)).foldl round s
  ⟨w32 (s.a + t.a), w32 (s.b + t.b), w32 (s.c + t.c), w32 (s.d + t.d),
   w32 (s.e + t.e), w32 (s.f + t.f), w32 (s.g + t.g), w32 (s.h + t.h)⟩

/-- The SHA-256 initial hash value, in decimal. -/
def initState : Sha256State :=
  ⟨1779033703, 3144134277, 1013904242, 2773480762,
   1359893119, 2600822924, 528734635, 1541459225⟩

/-- The four big-endian bytes of a 32-bit word. -/
def wordBytes (w : Nat) : List Nat :=
  [w / 2 ^ 24 % 256, w / 2 ^ 16 % 256, w / 2 ^ 8 % 256, w % 256]

/-- SHA-256 of a byte string: pad, compress each 64-byte block, emit the
final state big-endian. -/
def sha256 (msg : List Nat) : List Nat :=
  let padded := padMessage msg
  let final := (List.range (padded.length / 64)).foldl
    (fun s i => compress s ((padded.drop (64 * i)).take 64)) initState
  wordBytes final.a ++ wordBytes final.b ++ wordBytes final.c ++ wordBytes final.d ++
    wordBytes final.e ++ wordBytes final.f ++ wordBytes final.g ++ wordBytes final.h

/-! ## HMAC (RFC 2104), instantiated at SHA-256 -/

/-- HMAC-SHA256: hash the key down if overlong, zero-pad it to the 64-byte
block, and nest the two keyed hashes. -/
def hmacSha256 (key msg : List Nat) : List Nat :=
  let k0 := if 64 < key.length then sha256 key else key
  let kp := k0 ++ List.replicate (64 - k0.length) 0
  sha256 ((kp.map (fun b => b ^^^ 0x5c)) ++ sha256 ((kp.map (fun b => b ^^^ 0x36)) ++ msg))

/-! ## Base64 (RFC 4648, standard alphabet, `=` padding)

`base64ct::Base64` — the padded standard encoding. Decoding validates
the structure (four-character groups, data characters from the alphabet,
`=` only as final padding) but, like base64ct's `decode`, drops the
surplus bits of a final partial group unchecked. -/

/-- The standard base64 alphabet. -/
def b64Alphabet : List Char :=
  ['A','B','C','D','E','F','G','H','I','J','K','L','M','N','O','P',
   'Q','R','S','T','U','V','W','X','Y','Z','a','b','c','d','e','f',
   'g','h','i','j','k','l','m','n','o','p','q','r','s','t','u','v',
   'w','x','y','z','0','1','2','3','4','5','6','7','8','9','+','/']

/-- The alphabet character of a six-bit value. -/
def b64char (n : Nat) : Char := b64Alphabet.getD n 'A'

/-- The six-bit value of an alphabet character; `none` off the alphabet
(in particular for `=`). -/
def sixbit (c : Char) : Option Nat := b64Alphabet.findIdx? (fun d => d = c)

/-- Standard padded base64 encoding of a byte string. -/
def b64encode : List Nat → List Char
  | x :: y :: z :: rest =>
    b64char (x / 4) :: b64char (x % 4 * 16 + y / 16) ::
      b64char (y % 16 * 4 + z / 64) :: b64char (z % 64) :: b64encode rest
  | [x, y] => [b64char (x / 4), b64char (x % 4 * 16 + y / 16), b64char (y % 16 * 4), '=']
  | [x] => [b64char (x / 4), b64char (x % 4 * 16), '=', '=']
  | [] => []

/-- Padded base64 decoding as base64ct's `decode` performs it:
four-character groups, `=` padding only at the very end, one trailing
`=` yielding two final bytes and two yielding one. The excess bits of
the final data character are dropped without a canonicality check,
exactly as base64ct pads the remainder with `A`, decodes three bytes and
copies only the leading ones. -/
def b64decode : List Char → Option (List Nat)
  | [] => some []
  | c1 :: c2 :: c3 :: c4 :: rest => do
    let v1 ← sixbit c1
    let v2 ← sixbit c2
    if c3 = '=' then
      if c4 = '=' ∧ rest = [] then some [v1 * 4 + v2 / 16] else none
    else do
      let v3 ← sixbit c3
      if c4 = '=' then
        if rest = [] then some [v1 * 4 + v2 / 16, v2 % 16 * 16 + v3 / 4] else none
      else do
        let v4 ← sixbit c4
        let tail ← b64decode rest
        some ((v1 * 4 + v2 / 16) :: (v2 % 16 * 16 + v3 / 4) :: (v3 % 4 * 64 + v4) :: tail)
  | _ => none

/-- `Base64::decode(digest_str, &mut digest)` with `digest` the
zero-initialized 32-byte buffer `Output::<Hmac<Sha256>>::default()`, as
`_verify` uses it: base64ct rejects only when the decoded length exceeds
the buffer, a shorter decode fills a prefix and leaves the buffer's
trailing zeros untouched, and the caller ignores the returned length,
comparing the whole 32-byte buffer against the MAC. -/
def b64decodeDigest (s : List Char) : Option (List Nat) :=
  (b64decode s).bind fun d =>
    if d.length ≤ 32 then some (d ++ List.replicate (32 - d.length) 0) else none

/-! ## Rust strings: UTF-8 byte view -/

/-- A Rust string: a sequence of unicode scalar values (Lean's `Char`),
always a valid UTF-8 string when viewed as bytes. -/
abbrev RStr := List Char

/-- The number of bytes of a character's UTF-8 encoding. -/
def utf8Len (c : Char) : Nat :=
  if c.val.toNat < 0x80 then 1
  else if c.val.toNat < 0x800 then 2
  else if c.val.toNat < 0x10000 then 3
  else 4

/-- The UTF-8 encoding of one character. -/
def utf8Char (c : Char) : List Nat :=
  let n := c.val.toNat
  if n < 0x80 then [n]
  else if n < 0x800 then [0xc0 + n / 64, 0x80 + n % 64]
  else if n < 0x10000 then [0xe0 + n / 4096, 0x80 + n / 64 % 64, 0x80 + n % 64]
  else [0xf0 + n / 262144, 0x80 + n / 4096 % 64, 0x80 + n / 64 % 64, 0x80 + n % 64]

/-- `str::as_bytes`: the UTF-8 bytes of a string. -/
def utf8Bytes (s : RStr) : List Nat := (s.map utf8Char).flatten

/-- `str::len`: the byte length of a string. -/
def byteLen (s : RStr) : Nat := (s.map utf8Len).sum

/-- `is_char_boundary(n)` plus `split_at(n)` in one step: `some (pre, suf)`
when byte offset `n` lands on a character boundary (including the end of
the string), `none` when the string is shorter than `n` bytes or the
offset falls inside a multi-byte character. -/
def splitAtByte : Nat → RStr → Option (RStr × RStr)
  | 0, s => some ([], s)
  | _ + 1, [] => none
  | n + 1, c :: cs =>
    if utf8Len c ≤ n + 1 then
      (splitAtByte (n + 1 - utf8Len c) cs).map (fun p => (c :: p.1, p.2))
    else none

/-! ## The signed jar -/

/-- `BASE64_DIGEST_LEN`: the encoded length of a 32-byte digest. -/
def BASE64_DIGEST_LEN : Nat := 44

/-- `KEY_LEN`: the signing key length in bytes. -/
def KEY_LEN : Nat := 32

/-- A well-formed signing key: exactly `KEY_LEN` bytes, each below 256. -/
def GoodKey (key : List Nat) : Prop :=
  key.length = KEY_LEN ∧ ∀ b ∈ key, b < 256

instance : DecidablePred GoodKey := fun key =>
  inferInstanceAs (Decidable (key.length = KEY_LEN ∧ ∀ b ∈ key, b < 256))

/-- `sign_cookie` on the value: the new value is
`base64(HMAC-SHA256(key, value)) ++ value`. -/
def signValue (key : List Nat) (value : RStr) : RStr :=
  b64encode (hmacSha256 key (utf8Bytes value)) ++ value

/-- `SignedJar::_verify`: reject unless offset `BASE64_DIGEST_LEN` is a
character boundary; split there; decode the first segment into the
zero-initialized 32-byte digest buffer; compare the recomputed MAC
against the whole buffer. -/
def _verify (key : List Nat) (cookieValue : RStr) : Except String RStr :=
  match splitAtByte BASE64_DIGEST_LEN cookieValue with
  | none => .error "missing or invalid digest"
  | some (digestStr, value) =>
    match b64decodeDigest digestStr with
    | none => .error "bad base64 digest"
    | some digest =>
      if hmacSha256 key (utf8Bytes value) = digest then .ok value
      else .error "value did not verify"

/-- A cookie, reduced to the fields the signed jar reads and writes. -/
structure Cookie where
  name : RStr
  value : RStr
deriving DecidableEq, Repr

/-- `Cookie::set_value`. -/
def Cookie.setValue (c : Cookie) (v : RStr) : Cookie := { c with value := v }

/-- `SignedJar::verify`: the public boundary collapses every `_verify`
error into `none`; on success the cookie carries the recovered plaintext. -/
def verifyCookie (key : List Nat) (cookie : Cookie) : Option Cookie :=
  match _verify key cookie.value with
  | .ok value => some (cookie.setValue value)
  | .error _ => none

/-- `SignedJar::sign_cookie` on a whole cookie. -/
def signCookie (key : List Nat) (cookie : Cookie) : Cookie :=
  cookie.setValue (signValue key cookie.value)

/-- The parent jar, as the out-of-scope key-value store collaborator:
lookup by name. -/
abbrev CookieJar := List Cookie

/-- `CookieJar::get`: the stored cookie with the given name, if any. -/
def jarGet (jar : CookieJar) (name : RStr) : Option Cookie :=
  jar.find? (fun c => c.name == name)

/-- `SignedJar::get`: fetch from the parent jar, then verify. -/
def signedGet (key : List Nat) (jar : CookieJar) (name : RStr) : Option Cookie :=
  (jarGet jar name).bind (fun c => verifyCookie key c)

/-- Modelled from the spec: construction of the signing key from a
64-byte master key (`Key::from` / `Key::signing`, outside this
component) — the signing half is the first `KEY_LEN` bytes of the master
key material, at "a specified minimum length, by an external
key-derivation facility". -/
def keySigning (master : List Nat) : List Nat := master.take KEY_LEN

/-- Equality of verification outcomes is decidable. -/
instance {ε α : Type} [DecidableEq ε] [DecidableEq α] : DecidableEq (Except ε α) :=
  fun a b =>
    match a, b with
    | .ok x, .ok y =>
      if h : x = y then .isTrue (congrArg Except.ok h)
      else .isFalse (fun hh => h (Except.ok.inj hh))
    | .error x, .error y =>
      if h : x = y then .isTrue (congrArg Except.error h)
      else .isFalse (fun hh => h (Except.error.inj hh))
    | .ok _, .error _ => .isFalse (fun hh => Except.noConfusion hh)
    | .error _, .ok _ => .isFalse (fun hh => Except.noConfusion hh)

/-- The spec's reading of "non-padded base-64": every character of the
segment comes from the standard alphabet, so the padding character never
appears. -/
def UnpaddedB64 (s : List Char) : Prop := ∀ c ∈ s, (sixbit c).isSome

instance : DecidablePred UnpaddedB64 := fun s =>
  inferInstanceAs (Decidable (∀ c ∈ s, (sixbit c).isSome))

/-- The all-zero 32-byte key, as a concrete well-formed key. -/
def zeroKey : List Nat := List.replicate 32 0

/-- A second concrete well-formed key, distinct from `zeroKey`. -/
def oneKey : List Nat := List.replicate 32 1

/-- The cookie value of the `issue_178` regression test: 43 one-byte
characters followed by the two-byte `£`, so byte offset 44 falls inside
the final character. -/
def issue178Value : RStr := "yyyyyyyyyyyyyyyyyyyyyyyyyyyyyyyyyyyyyyyyyyy£".data

/-- A framed value whose first 44 characters are garbage outside the
base64 alphabet. -/
def garbageFramed : RStr := List.replicate 44 '!'

/-- The documented 64-byte master key of the cross-implementation
`roundtrip` test. -/
def compatMasterKey : List Nat :=
  [89, 202, 200, 125, 230, 90, 197, 245, 166, 249, 34, 169, 135, 31, 20, 197,
   94, 154, 254, 79, 60, 26, 8, 143, 254, 24, 116, 138, 92, 225, 159, 60,
   157, 41, 135, 129, 31, 226, 196, 16, 198, 168, 134, 4, 42, 1, 196, 24,
   57, 103, 241, 147, 201, 185, 233, 10, 180, 170, 187, 89, 252, 137, 110, 107]

/-- The fixed framed value of the compatibility vector: the documented
44-character tag segment immediately followed by `Tamper-proof`. -/
def compatFramed : RStr := "3tdHXEQ2kf6fxC7dWzBGmpSLMtJenXLKrZ9cHkSsl1w=Tamper-proof".data

/-- A framed value whose 44-character tag segment ends in `==` and so
decodes to only 31 bytes: the first 31 bytes of the HMAC-SHA256 tag of
`"77"` under the zero key — a tag whose final byte happens to be zero,
so the zero-extended digest buffer matches the recomputed MAC. -/
def underfillFramed : RStr := "+oLeAqBWqeT8yfS4vJyT3CpdM4LDoz9Za2dbgOGoyw==77".data

/-! ## Shape of digests -/

/-- A SHA-256 digest is exactly 32 bytes. -/
theorem sha256_length (msg : List Nat) : (sha256 msg).length = 32 := by
  simp [sha256, wordBytes]

/-- Every byte of a SHA-256 digest is a byte. -/
theorem sha256_bytes_lt (msg : List Nat) : ∀ b ∈ sha256 msg, b < 256 := by
  intro b hb
  simp only [sha256, wordBytes, List.mem_append, List.mem_cons, List.not_mem_nil, or_false] at hb
  repeat' rcases hb with hb | hb
  all_goals omega

/-- An HMAC-SHA256 tag is exactly 32 bytes. -/
theorem hmacSha256_length (key msg : List Nat) : (hmacSha256 key msg).length = 32 :=
  sha256_length _

/-- Every byte of an HMAC-SHA256 tag is a byte. -/
theorem hmacSha256_bytes_lt (key msg : List Nat) : ∀ b ∈ hmacSha256 key msg, b < 256 :=
  sha256_bytes_lt _

/-! ## Base64 lemmas -/

/-- Decoding inverts encoding on six-bit values. -/
theorem sixbit_b64char : ∀ n < 64, sixbit (b64char n) = some n := by decide

/-- Alphabet characters are never the padding character. -/
theorem b64char_ne_pad : ∀ n < 64, b64char n ≠ '=' := by decide

/-- Every character base64 emits — alphabet or padding — is one UTF-8 byte. -/
theorem utf8Len_b64char (n : Nat) : utf8Len (b64char n) = 1 := by
  by_cases h : n < 64
  · exact (by decide : ∀ m < 64, utf8Len (b64char m) = 1) n h
  · have hlen : b64Alphabet.length ≤ n := by
      simp only [b64Alphabet, List.length_cons, List.length_nil]; omega
    unfold b64char
    rw [List.getD_eq_default _ _ hlen]
    decide

/-- The length of a padded base64 encoding: four characters per started
three-byte group. -/
theorem b64encode_length (l : List Nat) : (b64encode l).length = 4 * ((l.length + 2) / 3) := by
  induction l using b64encode.induct <;> simp [b64encode, *] <;> omega

/-- Base64 emits only one-byte (ASCII) characters. -/
theorem b64encode_ascii (l : List Nat) : ∀ c ∈ b64encode l, utf8Len c = 1 := by
  induction l using b64encode.induct with
  | case1 x y z rest ih =>
    intro c hc
    simp only [b64encode, List.mem_cons] at hc
    rcases hc with h | h | h | h | h
    · simp [h, utf8Len_b64char]
    · simp [h, utf8Len_b64char]
    · simp [h, utf8Len_b64char]
    · simp [h, utf8Len_b64char]
    · exact ih c h
  | case2 x y =>
    intro c hc
    simp only [b64encode, List.mem_cons, List.not_mem_nil, or_false] at hc
    rcases hc with h | h | h | h <;> subst h <;> first | apply utf8Len_b64char | decide
  | case3 x =>
    intro c hc
    simp only [b64encode, List.mem_cons, List.not_mem_nil, or_false] at hc
    rcases hc with h | h | h | h <;> subst h <;> first | apply utf8Len_b64char | decide
  | case4 =>
    intro c hc
    simp [b64encode] at hc

/-- Strict decoding inverts padded encoding on byte strings. -/
theorem b64decode_encode (l : List Nat) (hl : ∀ b ∈ l, b < 256) :
    b64decode (b64encode l) = some l := by
  induction l using b64encode.induct with
  | case1 x y z rest ih =>
    have hx : x < 256 := hl x (by simp)
    have hy : y < 256 := hl y (by simp)
    have hz : z < 256 := hl z (by simp)
    have h1 : x / 4 < 64 := by omega
    have h2 : x % 4 * 16 + y / 16 < 64 := by omega
    have h3 : y % 16 * 4 + z / 64 < 64 := by omega
    have h4 : z % 64 < 64 := by omega
    have ih' := ih (fun b hb => hl b (by simp [hb]))
    simp [b64encode, b64decode, sixbit_b64char _ h1, sixbit_b64char _ h2,
      sixbit_b64char _ h3, sixbit_b64char _ h4,
      b64char_ne_pad _ h3, b64char_ne_pad _ h4, ih', List.cons.injEq]
    omega
  | case2 x y =>
    have hx : x < 256 := hl x (by simp)
    have hy : y < 256 := hl y (by simp)
    have h1 : x / 4 < 64 := by omega
    have h2 : x % 4 * 16 + y / 16 < 64 := by omega
    have h3 : y % 16 * 4 < 64 := by omega
    simp [b64encode, b64decode, sixbit_b64char _ h1, sixbit_b64char _ h2,
      sixbit_b64char _ h3, b64char_ne_pad _ h3, List.cons.injEq]
    omega
  | case3 x =>
    have hx : x < 256 := hl x (by simp)
    have h1 : x / 4 < 64 := by omega
    have h2 : x % 4 * 16 < 64 := by omega
    simp [b64encode, b64decode, sixbit_b64char _ h1, sixbit_b64char _ h2,
      List.cons.injEq]
    omega
  | case4 => rfl

/-- A byte string one short of a three-byte group — a 32-byte digest in
particular — encodes as alphabet characters followed by exactly one
padding character. -/
theorem b64encode_pad_structure (l : List Nat) (hl : ∀ b ∈ l, b < 256)
    (hmod : l.length % 3 = 2) :
    ∃ data, b64encode l = data ++ ['='] ∧ data.length + 1 = (b64encode l).length ∧
      ∀ c ∈ data, (sixbit c).isSome := by
  induction l using b64encode.induct with
  | case1 x y z rest ih =>
    have hx : x < 256 := hl x (by simp)
    have hy : y < 256 := hl y (by simp)
    have hz : z < 256 := hl z (by simp)
    obtain ⟨data, hdata, hlen, halpha⟩ :=
      ih (fun b hb => hl b (by simp [hb])) (by simp at hmod ⊢; omega)
    refine ⟨b64char (x / 4) :: b64char (x % 4 * 16 + y / 16) ::
      b64char (y % 16 * 4 + z / 64) :: b64char (z % 64) :: data, ?_, ?_, ?_⟩
    · simp [b64encode, hdata]
    · simp only [b64encode, hdata, List.length_append, List.length_cons,
        List.length_nil] at hlen ⊢
      try omega
    · intro c hc
      simp only [List.mem_cons] at hc
      rcases hc with rfl | rfl | rfl | rfl | hc
      · simp [(sixbit_b64char _ (by omega : x / 4 < 64))]
      · simp [(sixbit_b64char _ (by omega : x % 4 * 16 + y / 16 < 64))]
      · simp [(sixbit_b64char _ (by omega : y % 16 * 4 + z / 64 < 64))]
      · simp [(sixbit_b64char _ (by omega : z % 64 < 64))]
      · exact halpha c hc
  | case2 x y =>
    have hx : x < 256 := hl x (by simp)
    have hy : y < 256 := hl y (by simp)
    refine ⟨[b64char (x / 4), b64char (x % 4 * 16 + y / 16), b64char (y % 16 * 4)],
      by simp [b64encode], by simp [b64encode], ?_⟩
    intro c hc
    simp only [List.mem_cons, List.not_mem_nil, or_false] at hc
    rcases hc with rfl | rfl | rfl
    · simp [(sixbit_b64char _ (by omega : x / 4 < 64))]
    · simp [(sixbit_b64char _ (by omega : x % 4 * 16 + y / 16 < 64))]
    · simp [(sixbit_b64char _ (by omega : y % 16 * 4 < 64))]
  | case3 x => simp at hmod
  | case4 => simp at hmod

/-! ## Byte-offset lemmas -/

/-- Every character occupies at least one byte. -/
theorem utf8Len_pos (c : Char) : 0 < utf8Len c := by
  unfold utf8Len; split_ifs <;> norm_num

/-- A string of one-byte characters is as long in bytes as in characters. -/
theorem byteLen_eq_length (s : RStr) (h : ∀ c ∈ s, utf8Len c = 1) :
    byteLen s = s.length := by
  induction s with
  | nil => rfl
  | cons c cs ih =>
    have hb : byteLen (c :: cs) = utf8Len c + byteLen cs := by simp [byteLen]
    rw [hb, h c (by simp), ih (fun d hd => h d (by simp [hd])), List.length_cons]
    omega

/-- Splitting a concatenation at the byte length of its first part
recovers the parts: the offset lands exactly on the seam. -/
theorem splitAtByte_append (xs ys : RStr) :
    splitAtByte (byteLen xs) (xs ++ ys) = some (xs, ys) := by
  induction xs with
  | nil => simp [byteLen, splitAtByte]
  | cons c cs ih =>
    have h1 : 0 < utf8Len c := utf8Len_pos c
    have hb : byteLen (c :: cs) = utf8Len c + byteLen cs := by simp [byteLen]
    obtain ⟨m, hm⟩ : ∃ m, byteLen (c :: cs) = m + 1 := ⟨byteLen (c :: cs) - 1, by omega⟩
    rw [List.cons_append, hm, splitAtByte, if_pos (by omega),
      (by omega : m + 1 - utf8Len c = byteLen cs), ih]
    rfl

/-- A string shorter than `n` bytes has no boundary at offset `n`. -/
theorem splitAtByte_short (s : RStr) (n : Nat) (h : byteLen s < n) :
    splitAtByte n s = none := by
  induction s generalizing n with
  | nil =>
    obtain ⟨m, rfl⟩ : ∃ m, n = m + 1 := ⟨n - 1, by omega⟩
    rfl
  | cons c cs ih =>
    have hb : byteLen (c :: cs) = utf8Len c + byteLen cs := by simp [byteLen]
    obtain ⟨m, rfl⟩ : ∃ m, n = m + 1 := ⟨n - 1, by omega⟩
    rw [splitAtByte]
    by_cases hc : utf8Len c ≤ m + 1
    · rw [if_pos hc, ih _ (by omega)]; rfl
    · rw [if_neg hc]

/-! ## The claims -/

/-- C1. Round trip: for every 32-byte key and every plaintext — empty or
containing non-ASCII characters — verifying the framed value produced by
signing succeeds and returns exactly the plaintext. -/
theorem sign_verify_roundtrip (key : List Nat) (hkey : GoodKey key) (P : RStr) :
    _verify key (signValue key P) = .ok P := by
  have hlen : (hmacSha256 key (utf8Bytes P)).length = 32 := hmacSha256_length key _
  have hlt := hmacSha256_bytes_lt key (utf8Bytes P)
  have hbl : byteLen (b64encode (hmacSha256 key (utf8Bytes P))) = BASE64_DIGEST_LEN := by
    rw [byteLen_eq_length _ (b64encode_ascii _), b64encode_length, hlen]
    rfl
  unfold signValue _verify
  rw [← hbl, splitAtByte_append]
  simp [b64decodeDigest, b64decode_encode _ hlt, hlen]

/-- Witness for C1 at the zero key and the plaintext `"value"` — the
spec's literal scenario. -/
theorem sign_verify_roundtrip_witness :
    _verify zeroKey (signValue zeroKey ['v', 'a', 'l', 'u', 'e']) =
      .ok ['v', 'a', 'l', 'u', 'e'] :=
  sign_verify_roundtrip zeroKey (by decide) _

set_option maxRecDepth 100000 in
/-- C2, counterexample: the program does not require the tag segment to
decode to exactly 32 bytes. At the zero key, a framed value whose first
44 characters end in `==` and decode to only 31 bytes is *accepted* —
the digest buffer's untouched final zero byte completes a tag that ends
in zero — refuting "returns the suffix exactly when … the first 44
characters base-64-decode to exactly 32 raw bytes, … otherwise a
rejection". -/
theorem verify_not_exact32_counterexample :
    _verify zeroKey underfillFramed = .ok ['7', '7'] ∧
    (b64decode (underfillFramed.take BASE64_DIGEST_LEN)).map List.length = some 31 := by
  decide

/-- C2 as amended. Verification reference behaviour: `_verify` returns
the suffix beyond offset 44 unchanged exactly when the offset is a valid
split boundary, the first 44 characters decode into the zero-initialized
32-byte digest buffer without exceeding it — 32 decoded bytes under one
trailing `=`, or 31 zero-extended bytes under two — and the resulting
buffer equals the HMAC-SHA256 tag of the suffix; in every other case it
returns a rejection. -/
theorem verify_characterisation (key : List Nat) (hkey : GoodKey key) (framed : RStr) :
    (∀ v, _verify key framed = .ok v ↔
      ∃ pre, splitAtByte BASE64_DIGEST_LEN framed = some (pre, v) ∧
        b64decodeDigest pre = some (hmacSha256 key (utf8Bytes v))) ∧
    ((∀ v pre, splitAtByte BASE64_DIGEST_LEN framed = some (pre, v) →
        b64decodeDigest pre ≠ some (hmacSha256 key (utf8Bytes v))) →
      ∃ e, _verify key framed = .error e) := by
  rcases hsplit : splitAtByte BASE64_DIGEST_LEN framed with - | ⟨pre, suf⟩
  · constructor
    · intro v
      constructor
      · intro h; simp [_verify, hsplit] at h
      · rintro ⟨pre, hpre, -⟩; cases hpre
    · rintro -; exact ⟨"missing or invalid digest", by simp [_verify, hsplit]⟩
  · rcases hdec : b64decodeDigest pre with - | d
    · constructor
      · intro v
        constructor
        · intro h; simp [_verify, hsplit, hdec] at h
        · rintro ⟨pre', hpre, hd⟩
          obtain ⟨rfl, rfl⟩ : pre = pre' ∧ suf = v := by
            have hp := Option.some.inj hpre
            exact ⟨congrArg Prod.fst hp, congrArg Prod.snd hp⟩
          rw [hdec] at hd; cases hd
      · rintro -; exact ⟨"bad base64 digest", by simp [_verify, hsplit, hdec]⟩
    · by_cases hmac : hmacSha256 key (utf8Bytes suf) = d
      · constructor
        · intro v
          constructor
          · intro h
            have hv : suf = v := by simpa [_verify, hsplit, hdec, hmac] using h
            subst hv
            exact ⟨pre, rfl, by rw [hdec, hmac]⟩
          · rintro ⟨pre', hpre, hd⟩
            obtain ⟨rfl, rfl⟩ : pre = pre' ∧ suf = v := by
              have hp := Option.some.inj hpre
              exact ⟨congrArg Prod.fst hp, congrArg Prod.snd hp⟩
            simp [_verify, hsplit, hdec, hmac]
        · intro h
          exact absurd (by rw [hdec, hmac]) (h suf pre rfl)
      · constructor
        · intro v
          constructor
          · intro h; simp [_verify, hsplit, hdec, hmac] at h
          · rintro ⟨pre', hpre, hd⟩
            obtain ⟨rfl, rfl⟩ : pre = pre' ∧ suf = v := by
              have hp := Option.some.inj hpre
              exact ⟨congrArg Prod.fst hp, congrArg Prod.snd hp⟩
            rw [hdec] at hd
            exact absurd (Option.some.inj hd).symm hmac
        · rintro -; exact ⟨"value did not verify", by simp [_verify, hsplit, hdec, hmac]⟩

/-- Witness for C2: at the zero key, the empty framed value has no
boundary at offset 44, so verification rejects. -/
theorem verify_characterisation_witness : ∃ e, _verify zeroKey [] = .error e :=
  (verify_characterisation zeroKey (by decide) []).2
    (fun v pre h => by rw [splitAtByte_short [] BASE64_DIGEST_LEN (by decide)] at h; cases h)

/-- C4. Malformed-input safety: `_verify` totally evaluates to an outcome
for every input, and rejects inputs shorter than 44 bytes, inputs where
offset 44 is no character boundary, and inputs whose first 44 characters
do not decode into the digest buffer. -/
theorem verify_never_panics (key : List Nat) (s : RStr) :
    (byteLen s < BASE64_DIGEST_LEN → _verify key s = .error "missing or invalid digest") ∧
    (splitAtByte BASE64_DIGEST_LEN s = none →
      _verify key s = .error "missing or invalid digest") ∧
    (∀ pre suf, splitAtByte BASE64_DIGEST_LEN s = some (pre, suf) →
      b64decodeDigest pre = none → _verify key s = .error "bad base64 digest") ∧
    ((∃ v, _verify key s = .ok v) ∨ ∃ e, _verify key s = .error e) := by
  refine ⟨?_, ?_, ?_, ?_⟩
  · intro h
    simp [_verify, splitAtByte_short s _ h]
  · intro h; simp [_verify, h]
  · intro pre suf hs hd; simp [_verify, hs, hd]
  · rcases h : _verify key s with e | v
    · exact Or.inr ⟨e, rfl⟩
    · exact Or.inl ⟨v, rfl⟩

set_option maxRecDepth 8192 in
/-- Witness for C4: the `issue_178` regression value — a multi-byte
character straddling offset 44 — is rejected as malformed framing. -/
theorem verify_never_panics_witness :
    _verify zeroKey issue178Value = .error "missing or invalid digest" :=
  (verify_never_panics zeroKey issue178Value).2.1 (by decide)

/-- C5. Error collapse at the public boundary: `verify` returns `none`
exactly when `_verify` rejects — whichever of the three reasons — and
`some` of the cookie with the authenticated plaintext substituted in
exactly when `_verify` succeeds; no error value survives. -/
theorem verify_public_collapse (key : List Nat) (c : Cookie) :
    (verifyCookie key c = none ↔ ∃ e, _verify key c.value = .error e) ∧
    (∀ c', verifyCookie key c = some c' ↔
      ∃ v, _verify key c.value = .ok v ∧ c' = c.setValue v) := by
  unfold verifyCookie
  rcases h : _verify key c.value with e | v
  · simp [h]
  · simp [h]
    exact fun c' => eq_comm

/-- Witness for C5: a plaintext cookie value fails `_verify`, and the
public boundary returns `none` for it. -/
theorem verify_public_collapse_witness :
    verifyCookie zeroKey ⟨['n'], ['p', 'l', 'a', 'i', 'n']⟩ = none :=
  (verify_public_collapse zeroKey ⟨['n'], ['p', 'l', 'a', 'i', 'n']⟩).1.mpr
    ⟨"missing or invalid digest", by decide⟩

set_option maxRecDepth 100000 in
/-- C6, counterexample: a 44-character segment with the *wrong decoded
length* — 31 bytes under `==` padding — is not rejected before the MAC:
the program computes and compares the MAC over the zero-extended buffer,
and the outcome depends on the key (the zero key accepts this framed
value, the one key rejects it), refuting "rejects without computing or
comparing any MAC" for wrong decoded lengths. -/
theorem short_decode_mac_compared_counterexample :
    (b64decode (underfillFramed.take BASE64_DIGEST_LEN)).map List.length = some 31 ∧
    _verify zeroKey underfillFramed ≠ _verify oneKey underfillFramed := by
  decide

/-- C6 as amended. Decode-failure rejection: when the split at offset 44
is valid but the first segment does not decode into the 32-byte digest
buffer at all — an invalid or misplaced character, or a decoded length
exceeding the buffer — `_verify` rejects with the decode error, and the
outcome is independent of the key: no MAC enters the result. (A segment
that validly decodes to fewer than 32 bytes is instead zero-extended and
does reach the key-dependent MAC comparison.) -/
theorem decode_failure_rejects (key key2 : List Nat) (s pre suf : RStr)
    (hsplit : splitAtByte BASE64_DIGEST_LEN s = some (pre, suf))
    (hdec : b64decodeDigest pre = none) :
    _verify key s = .error "bad base64 digest" ∧ _verify key s = _verify key2 s := by
  constructor <;> simp [_verify, hsplit, hdec]

/-- Witness for C6: 44 characters of `!` decode to nothing, and both the
zero key and the one key reject identically. -/
theorem decode_failure_rejects_witness :
    _verify zeroKey garbageFramed = .error "bad base64 digest" :=
  (decode_failure_rejects zeroKey oneKey garbageFramed garbageFramed []
    (by decide) (by decide)).1

/-- C7. Determinism of signing: the framed value depends on nothing but
the key and the cookie's value — no nonce, salt, or randomness — so two
invocations on identical inputs produce identical output. -/
theorem sign_deterministic (key : List Nat) (c1 c2 : Cookie) (h : c1.value = c2.value) :
    (signCookie key c1).value = (signCookie key c2).value := by
  simp [signCookie, Cookie.setValue, signValue, h]

/-- Witness for C7: two cookies with different names but equal values
sign to the same framed value. -/
theorem sign_deterministic_witness :
    (signCookie zeroKey ⟨['a'], ['v']⟩).value = (signCookie zeroKey ⟨['b'], ['v']⟩).value :=
  sign_deterministic zeroKey ⟨['a'], ['v']⟩ ⟨['b'], ['v']⟩ (by decide)

set_option maxRecDepth 100000 in
/-- C3, counterexample: the tag segment produced by signing is not
non-padded base64 — at the zero key and the empty plaintext its final
character is the padding character `=`, which is outside the standard
alphabet. -/
theorem sign_tag_not_unpadded :
    ¬ UnpaddedB64 ((signValue zeroKey []).take BASE64_DIGEST_LEN) := by decide

/-- C3 as amended. Wire format: the framed value is the encoded tag
immediately followed by the plaintext with no separator, of byte length
`44 + |P|`; the encoded tag is exactly 44 characters of fixed-length
standard base64 *with padding* — 43 alphabet characters and one final
`=` — encoding the 32-byte HMAC-SHA256 tag of the plaintext. -/
theorem sign_wire_format (key : List Nat) (hkey : GoodKey key) (P : RStr) :
    signValue key P = b64encode (hmacSha256 key (utf8Bytes P)) ++ P ∧
    (hmacSha256 key (utf8Bytes P)).length = 32 ∧
    (b64encode (hmacSha256 key (utf8Bytes P))).length = BASE64_DIGEST_LEN ∧
    byteLen (signValue key P) = BASE64_DIGEST_LEN + byteLen P ∧
    b64decodeDigest (b64encode (hmacSha256 key (utf8Bytes P))) =
      some (hmacSha256 key (utf8Bytes P)) ∧
    ∃ data, b64encode (hmacSha256 key (utf8Bytes P)) = data ++ ['='] ∧
      data.length = 43 ∧ ∀ c ∈ data, (sixbit c).isSome := by
  have hlen : (hmacSha256 key (utf8Bytes P)).length = 32 := hmacSha256_length key _
  have hlt := hmacSha256_bytes_lt key (utf8Bytes P)
  have henclen : (b64encode (hmacSha256 key (utf8Bytes P))).length = BASE64_DIGEST_LEN := by
    rw [b64encode_length, hlen]; rfl
  have hbl : byteLen (b64encode (hmacSha256 key (utf8Bytes P))) = BASE64_DIGEST_LEN := by
    rw [byteLen_eq_length _ (b64encode_ascii _), henclen]
  refine ⟨rfl, hlen, henclen, ?_, ?_, ?_⟩
  · unfold signValue
    rw [show byteLen (b64encode (hmacSha256 key (utf8Bytes P)) ++ P) =
        byteLen (b64encode (hmacSha256 key (utf8Bytes P))) + byteLen P from by
      simp [byteLen], hbl]
  · simp [b64decodeDigest, b64decode_encode _ hlt, hlen]
  · obtain ⟨data, hdata, hdlen, halpha⟩ :=
      b64encode_pad_structure _ hlt (by rw [hlen])
    rw [hdata, List.length_append, List.length_cons, List.length_nil] at henclen
    have h44 : BASE64_DIGEST_LEN = 44 := rfl
    rw [h44] at henclen
    exact ⟨data, hdata, by omega, halpha⟩

/-- Witness for C3 as amended: at the zero key and the plaintext
`"value"`, the framed byte length is `44 + 5`. -/
theorem sign_wire_format_witness :
    byteLen (signValue zeroKey ['v', 'a', 'l', 'u', 'e']) =
      BASE64_DIGEST_LEN + byteLen ['v', 'a', 'l', 'u', 'e'] :=
  (sign_wire_format zeroKey (by decide) ['v', 'a', 'l', 'u', 'e']).2.2.2.1

/-- C10. Store-integration `get`: the signed jar's lookup is the parent
jar's lookup composed with verification — `none` exactly when the parent
holds no cookie of that name or its value fails to verify, and otherwise
the stored cookie with the authenticated plaintext substituted in. The
embedding of `get` is a pure function of the jar, which it leaves
untouched. -/
theorem signed_get_characterisation (key : List Nat) (jar : CookieJar) (name : RStr) :
    (signedGet key jar name = none ↔
      jarGet jar name = none ∨
        ∃ c, jarGet jar name = some c ∧ verifyCookie key c = none) ∧
    (∀ c', signedGet key jar name = some c' ↔
      ∃ c v, jarGet jar name = some c ∧ _verify key c.value = .ok v ∧ c' = c.setValue v) := by
  unfold signedGet
  rcases hj : jarGet jar name with - | c
  · simp
  · rcases hv : _verify key c.value with e | v
    · simp [verifyCookie, hv]
    · simp [verifyCookie, hv]
      exact fun c' => eq_comm

set_option maxRecDepth 16384 in
/-- C8. Cross-implementation compatibility vector: under the signing half
of the documented 64-byte key, the fixed framed value verifies to the
plaintext `Tamper-proof`. -/
theorem compat_vector_verifies :
    _verify (keySigning compatMasterKey) compatFramed = .ok "Tamper-proof".data := by
  decide

end SignedCookie
